import Mathlib

/-!
Verification of the portfolio performance-metrics engine of
`Assignment_HC/streamlit_task/processing.py`.

The engine operates on pandas Series / numpy arrays of IEEE-754 doubles.
The embedding models a numeric series as a `List ℚ` (exact arithmetic in
place of floating point), and models the IEEE special values that the
engine's divisions and reductions can produce with the extended-value
type `FV`: a finite number, NaN, `+inf` or `-inf`.  Division follows the
IEEE convention used by numpy/pandas: `x / 0` is NaN when `x = 0` and a
signed infinity otherwise.  Square roots (`np.sqrt`) force the metrics
that annualize by `sqrt(252)` into `FV ℝ`; the purely rational metrics
(maximum drawdown, alpha/beta) stay in the computable `FV ℚ`.

Timestamped series (used by `calculate_alpha_beta`'s inner join) are
modelled as association lists `List (ℤ × Option ℚ)` with `none` standing
for a missing value (NaN cell); per the data model, timestamps are
strictly increasing, so a first-match lookup is the inner join.
-/

namespace PortfolioMetrics

/-- Extended value: a finite number of type `α`, NaN, or a signed infinity,
modelling what an IEEE-754 scalar produced by the engine can be. -/
inductive FV (α : Type) where
  | num : α → FV α
  | nan : FV α
  | pinf : FV α
  | ninf : FV α
deriving DecidableEq

/-- IEEE-style subtraction on extended values. -/
def FV.sub {α : Type} [LinearOrderedField α] : FV α → FV α → FV α
  | .num a, .num b => .num (a - b)
  | .nan, _ => .nan
  | _, .nan => .nan
  | .pinf, .pinf => .nan
  | .ninf, .ninf => .nan
  | .pinf, _ => .pinf
  | .ninf, _ => .ninf
  | _, .pinf => .ninf
  | _, .ninf => .pinf

/-- IEEE-style multiplication on extended values. -/
def FV.mul {α : Type} [LinearOrderedField α] : FV α → FV α → FV α
  | .num a, .num b => .num (a * b)
  | .nan, _ => .nan
  | _, .nan => .nan
  | .pinf, .num b => if 0 < b then .pinf else if b < 0 then .ninf else .nan
  | .num b, .pinf => if 0 < b then .pinf else if b < 0 then .ninf else .nan
  | .ninf, .num b => if 0 < b then .ninf else if b < 0 then .pinf else .nan
  | .num b, .ninf => if 0 < b then .ninf else if b < 0 then .pinf else .nan
  | .pinf, .pinf => .pinf
  | .ninf, .ninf => .pinf
  | .pinf, .ninf => .ninf
  | .ninf, .pinf => .ninf

/-- IEEE-style division on extended values: a finite numerator over zero is
NaN when the numerator is zero and a signed infinity otherwise. -/
def FV.div {α : Type} [LinearOrderedField α] : FV α → FV α → FV α
  | .num a, .num b =>
      if b = 0 then (if 0 < a then .pinf else if a < 0 then .ninf else .nan)
      else .num (a / b)
  | .nan, _ => .nan
  | _, .nan => .nan
  | .num _, .pinf => .num 0
  | .num _, .ninf => .num 0
  | .pinf, .num b => if 0 ≤ b then .pinf else .ninf
  | .ninf, .num b => if 0 ≤ b then .ninf else .pinf
  | .pinf, .pinf => .nan
  | .pinf, .ninf => .nan
  | .ninf, .pinf => .nan
  | .ninf, .ninf => .nan

/-- Arithmetic mean of a rational list (the value `Series.mean` computes on a
non-empty series; junk `0` on the empty list, which callers guard). -/
def meanQ (l : List ℚ) : ℚ := l.sum / l.length

/-- Sample variance, divisor `n - 1`: what `Series.std(ddof=1)**2` computes
for `n ≥ 2` (callers guard `n < 2`). -/
def sampleVar (l : List ℚ) : ℚ :=
  (l.map (fun x => (x - meanQ l) ^ 2)).sum / ((l.length : ℚ) - 1)

/-- Population variance, divisor `n`: what `np.var(ddof=0)` computes on a
non-empty series. -/
def popVar (l : List ℚ) : ℚ :=
  (l.map (fun x => (x - meanQ l) ^ 2)).sum / (l.length : ℚ)

/-- Sample covariance, divisor `n - 1`: the off-diagonal entry of
`np.cov(p, q)` for two equal-length series with `n ≥ 2`. -/
def sampleCov (p q : List ℚ) : ℚ :=
  ((p.zip q).map (fun pr => (pr.1 - meanQ p) * (pr.2 - meanQ q))).sum
    / ((p.length : ℚ) - 1)

/-- Mean as an extended value: `np.mean` / `Series.mean` returns NaN on an
empty series. -/
def fmean (l : List ℚ) : FV ℝ :=
  if l = [] then FV.nan else FV.num ((meanQ l : ℚ) : ℝ)

/-- Pandas `Series.std()` (default `ddof=1`): NaN for fewer than 2 points,
else the square root of the sample variance. -/
noncomputable def pandasStd (l : List ℚ) : FV ℝ :=
  if l.length < 2 then FV.nan else FV.num (Real.sqrt ((sampleVar l : ℚ) : ℝ))

/-- Numpy `np.std` (default `ddof=0`): NaN on an empty array, else the
square root of the population variance (0 for a single point). -/
noncomputable def npStd (l : List ℚ) : FV ℝ :=
  if l = [] then FV.nan else FV.num (Real.sqrt ((popVar l : ℚ) : ℝ))

/-- `calculate_annual_volatility`: `returns.std() * np.sqrt(252)`. -/
noncomputable def calculate_annual_volatility (returns : List ℚ) : FV ℝ :=
  FV.mul (pandasStd returns) (FV.num (Real.sqrt 252))

/-- `calculate_sharpe_ratio`: `(returns.mean() - rf/252) / returns.std() *
np.sqrt(252)` — the source performs no zero-stdev guard before dividing. -/
noncomputable def calculate_sharpe_ratio (returns : List ℚ) (rf : ℚ) : FV ℝ :=
  FV.mul
    (FV.div (FV.sub (fmean returns) (FV.num ((rf / 252 : ℚ) : ℝ)))
      (pandasStd returns))
    (FV.num (Real.sqrt 252))

/-- Helper for `pctChange`: returns of the tail of a price list, the previous
price threaded through (`p / prev - 1` for each element). -/
def pctChangeFrom (prev : ℚ) : List ℚ → List ℚ
  | [] => []
  | p :: ps => (p / prev - 1) :: pctChangeFrom p ps

/-- Pandas `prices.pct_change().fillna(0)`: the first return is the filled
`0`, the return at `i > 0` is `price[i]/price[i-1] - 1`.  (Faithful to the
source for series of nonzero prices, which the theorems assume.) -/
def pctChange : List ℚ → List ℚ
  | [] => []
  | p :: ps => 0 :: pctChangeFrom p ps

/-- Helper for `cumprod`: running product with accumulator. -/
def cumprodGo (acc : ℚ) : List ℚ → List ℚ
  | [] => []
  | x :: xs => (acc * x) :: cumprodGo (acc * x) xs

/-- Pandas `Series.cumprod()`. -/
def cumprod (l : List ℚ) : List ℚ := cumprodGo 1 l

/-- `calculate_cumulative_returns`: `(1 + prices.pct_change().fillna(0)).cumprod() - 1`. -/
def calculate_cumulative_returns (prices : List ℚ) : List ℚ :=
  (cumprod ((pctChange prices).map (fun r => 1 + r))).map (fun x => x - 1)

/-- Helper for `runningMax`: running maximum with accumulator. -/
def runningMaxGo (m : ℚ) : List ℚ → List ℚ
  | [] => []
  | x :: xs => max m x :: runningMaxGo (max m x) xs

/-- Pandas `cum.expanding(min_periods=1).max()`: the running maximum. -/
def runningMax : List ℚ → List ℚ
  | [] => []
  | x :: xs => x :: runningMaxGo x xs

/-- True exactly on the NaN extended value. -/
def fvIsNaN {α : Type} : FV α → Bool
  | .nan => true
  | _ => false

/-- Minimum of two non-NaN extended values (ordering `-inf < num _ < +inf`);
NaN absorbs, but `fvMin` filters NaN out before folding. -/
def fvMinVal {α : Type} [LinearOrderedField α] : FV α → FV α → FV α
  | .nan, _ => .nan
  | _, .nan => .nan
  | .ninf, _ => .ninf
  | _, .ninf => .ninf
  | .pinf, x => x
  | x, .pinf => x
  | .num a, .num b => .num (min a b)

/-- Pandas `Series.min()` with the default `skipna=True`: NaN entries are
dropped; the minimum of the rest is returned, NaN if nothing remains. -/
def fvMin {α : Type} [LinearOrderedField α] (l : List (FV α)) : FV α :=
  match l.filter (fun v => !(fvIsNaN v)) with
  | [] => FV.nan
  | x :: xs => xs.foldl fvMinVal x

/-- `calculate_maximum_drawdown`: `((cum - peak) / peak).min()` where `peak`
is the running maximum of `cum`; elementwise IEEE division, NaN-skipping min. -/
def calculate_maximum_drawdown (cum : List ℚ) : FV ℚ :=
  fvMin ((cum.zip (runningMax cum)).map
    (fun pr => FV.div (FV.num (pr.1 - pr.2)) (FV.num pr.2)))

/-- Pandas `Series.quantile(q)` with the default linear interpolation on a
non-empty list: with the data sorted ascending and `h = q*(n-1)`, the result
interpolates between the entries at `⌊h⌋` and `⌊h⌋+1`. -/
def quantileQ (l : List ℚ) (q : ℚ) : ℚ :=
  let s := l.insertionSort (· ≤ ·)
  let h : ℚ := q * ((l.length : ℚ) - 1)
  let lo : ℕ := (⌊h⌋).toNat
  let frac : ℚ := h - (lo : ℚ)
  s.getD lo 0 + frac * (s.getD (lo + 1) (s.getD lo 0) - s.getD lo 0)

/-- `calculate_var`: NaN on an empty series, else
`-(returns.quantile(1 - confidence) * np.sqrt(period))`. -/
noncomputable def calculate_var (returns : List ℚ) (confidence : ℚ)
    (period : ℕ) : FV ℝ :=
  if returns = [] then FV.nan
  else FV.num (-(((quantileQ returns (1 - confidence) : ℚ) : ℝ)
    * Real.sqrt (period : ℝ)))

/-- Elementwise difference of two aligned equal-length return series
(`portfolio_returns - benchmark_returns` on series sharing their index). -/
def zipSub (p b : List ℚ) : List ℚ := List.zipWith (fun x y => x - y) p b

/-- `calculate_tracking_error`: `np.std(p - b) * np.sqrt(252)` — no
minimum-point check in the source. -/
noncomputable def calculate_tracking_error (p b : List ℚ) : FV ℝ :=
  FV.mul (npStd (zipSub p b)) (FV.num (Real.sqrt 252))

/-- `calculate_information_ratio`:
`np.mean(excess) / np.std(excess) * np.sqrt(252)` with `excess = p - b` —
no minimum-point check in the source. -/
noncomputable def calculate_information_ratio (p b : List ℚ) : FV ℝ :=
  FV.mul (FV.div (fmean (zipSub p b)) (npStd (zipSub p b)))
    (FV.num (Real.sqrt 252))

/-- `calculate_sortino_ratio`: downside deviation
`sqrt(mean(min(r - rf/252, 0)^2)) * sqrt(252)`, and
`mean(r - rf/252) * 252 / dd` guarded by `dd != 0` (else NaN). -/
noncomputable def calculate_sortino_ratio (returns : List ℚ) (rf : ℚ) : FV ℝ :=
  let dd : ℝ :=
    Real.sqrt ((meanQ ((returns.map (fun x => min (x - rf / 252) 0)).map
      (fun x => x ^ 2)) : ℚ) : ℝ) * Real.sqrt 252
  if dd = 0 then FV.nan
  else FV.num (((meanQ (returns.map (fun x => x - rf / 252)) : ℚ) : ℝ)
    * 252 / dd)

/-- Inner join of two timestamped series on their timestamps
(`pd.Series.align(..., join='inner')` for strictly increasing timestamps):
the value pairs at timestamps present in both, in the first series' order. -/
def innerJoin (a b : List (ℤ × Option ℚ)) : List (Option ℚ × Option ℚ) :=
  a.filterMap (fun tx =>
    match b.lookup tx.1 with
    | some y => some (tx.2, y)
    | none => none)

/-- The joined rows with both cells present
(`pd.concat([p, b], axis=1).dropna()`). -/
def alignedPairs (a b : List (ℤ × Option ℚ)) : List (ℚ × ℚ) :=
  (innerJoin a b).filterMap (fun xy =>
    match xy with
    | (some x, some y) => some (x, y)
    | _ => none)

/-- `calculate_alpha_beta`: inner join, drop NaN rows; `(nan, nan)` if fewer
than 2 rows remain or the benchmark's population variance is 0; otherwise
`beta = cov(ddof=1) / var(ddof=0)` and `alpha = (mean p - beta * mean b) * 252`. -/
def calculate_alpha_beta (a b : List (ℤ × Option ℚ)) : FV ℚ × FV ℚ :=
  let v := alignedPairs a b
  if v.length < 2 then (FV.nan, FV.nan)
  else
    let p := v.map Prod.fst
    let q := v.map Prod.snd
    let benchVar := popVar q
    if benchVar = 0 then (FV.nan, FV.nan)
    else
      let beta := sampleCov p q / benchVar
      (FV.num ((meanQ p - beta * meanQ q) * 252), FV.num beta)

/-! Spec-side formulations (written from the specification's formulas, to be
compared with the embedded source definitions). -/

/-- The spec's return formula: `return[0] = 0` and
`return[i] = price[i]/price[i-1] - 1` for `i > 0`. -/
def returnsSpec (P : List ℚ) : List ℚ :=
  (List.range P.length).map
    (fun i => if i = 0 then 0 else P.getD i 0 / P.getD (i - 1) 0 - 1)

/-- The spec's cumulative formula: `cumulative[i] = Π_{j=0..i}(1+r[j]) - 1`. -/
def cumulativeSpec (r : List ℚ) : List ℚ :=
  (List.range r.length).map
    (fun i => (r.take (i + 1)).foldl (fun a x => a * (1 + x)) 1 - 1)

/-- Helper for `reconstructPrices`: successive prices `prev * (1 + r)`. -/
def reconstructGo (prev : ℚ) : List ℚ → List ℚ
  | [] => []
  | x :: xs => prev * (1 + x) :: reconstructGo (prev * (1 + x)) xs

/-- Modelled from the spec: reconstructing a price series from an initial
price and a return series, `price[i] = price[0] * Π_{j=1..i}(1 + r[j])`
(the leading filled-zero return `r[0]` contributes the factor 1). -/
def reconstructPrices (p0 : ℚ) : List ℚ → List ℚ
  | [] => []
  | _ :: rs => p0 :: reconstructGo p0 rs

/-! Helper lemmas. -/

lemma cumprodGo_eq (l : List ℚ) : ∀ acc : ℚ,
    cumprodGo acc l
      = (List.range l.length).map
          (fun i => (l.take (i + 1)).foldl (fun a x => a * x) acc) := by
  induction l with
  | nil => intro acc; rfl
  | cons x xs ih =>
    intro acc
    simp only [cumprodGo, List.length_cons, List.range_succ_eq_map,
      List.map_cons, List.map_map, List.take_succ_cons, List.foldl_cons]
    congr 1
    rw [ih (acc * x)]
    rfl

lemma pctChangeFrom_eq (ps : List ℚ) : ∀ prev : ℚ,
    pctChangeFrom prev ps
      = (List.range ps.length).map
          (fun i => ps.getD i 0 / (prev :: ps).getD i 0 - 1) := by
  induction ps with
  | nil => intro prev; rfl
  | cons p ps ih =>
    intro prev
    simp only [pctChangeFrom, List.length_cons, List.range_succ_eq_map,
      List.map_cons, List.map_map]
    congr 1
    rw [ih p]
    rfl

lemma runningMaxGo_length (l : List ℚ) : ∀ m : ℚ,
    (runningMaxGo m l).length = l.length := by
  induction l with
  | nil => intro m; rfl
  | cons x xs ih => intro m; simp [runningMaxGo, ih]

lemma runningMax_length (l : List ℚ) : (runningMax l).length = l.length := by
  cases l with
  | nil => rfl
  | cons x xs => simp [runningMax, runningMaxGo_length]

lemma fvIsNaN_false_iff {α : Type} (v : FV α) : fvIsNaN v = false ↔ v ≠ FV.nan := by
  cases v <;> simp [fvIsNaN]

lemma fvMinVal_ninf_left {α : Type} [LinearOrderedField α] (x : FV α)
    (hx : x ≠ FV.nan) : fvMinVal FV.ninf x = FV.ninf := by
  cases x <;> simp_all [fvMinVal]

lemma fvMinVal_ninf_right {α : Type} [LinearOrderedField α] (x : FV α)
    (hx : x ≠ FV.nan) : fvMinVal x FV.ninf = FV.ninf := by
  cases x <;> simp_all [fvMinVal]

lemma fvMinVal_ne_nan {α : Type} [LinearOrderedField α] (x y : FV α)
    (hx : x ≠ FV.nan) (hy : y ≠ FV.nan) : fvMinVal x y ≠ FV.nan := by
  cases x <;> cases y <;> simp_all [fvMinVal]

lemma foldl_fvMinVal_ninf {α : Type} [LinearOrderedField α] (xs : List (FV α)) :
    ∀ x : FV α, x ≠ FV.nan → (∀ y ∈ xs, y ≠ FV.nan) →
    (x = FV.ninf ∨ FV.ninf ∈ xs) → xs.foldl fvMinVal x = FV.ninf := by
  induction xs with
  | nil =>
    intro x _ _ hmem
    rcases hmem with h | h
    · simpa using h
    · simp at h
  | cons y ys ih =>
    intro x hx hys hmem
    have hy : y ≠ FV.nan := hys y (by simp)
    have hys' : ∀ z ∈ ys, z ≠ FV.nan := fun z hz => hys z (by simp [hz])
    rw [List.foldl_cons]
    rcases hmem with h | h
    · subst h
      exact ih (fvMinVal FV.ninf y) (by rw [fvMinVal_ninf_left y hy]; simp)
        hys' (Or.inl (fvMinVal_ninf_left y hy))
    · rcases List.mem_cons.mp h with h | h
      · rw [← h] at *
        exact ih (fvMinVal x FV.ninf) (by rw [fvMinVal_ninf_right x hx]; simp)
          hys' (Or.inl (fvMinVal_ninf_right x hx))
      · exact ih (fvMinVal x y) (fvMinVal_ne_nan x y hx hy) hys' (Or.inr h)

lemma fvMin_eq_ninf {α : Type} [LinearOrderedField α] (l : List (FV α))
    (h : FV.ninf ∈ l) : fvMin l = FV.ninf := by
  have hmem : FV.ninf ∈ l.filter (fun v => !(fvIsNaN v)) :=
    List.mem_filter.mpr ⟨h, by simp [fvIsNaN]⟩
  have hclean : ∀ y ∈ l.filter (fun v => !(fvIsNaN v)), y ≠ FV.nan := by
    intro y hy
    have := (List.mem_filter.mp hy).2
    simpa [fvIsNaN_false_iff] using this
  rw [fvMin]
  split
  · next heq => rw [heq] at hmem; simp at hmem
  · next x xs heq =>
    rw [heq] at hmem hclean
    refine foldl_fvMinVal_ninf xs x (hclean x (by simp))
      (fun y hy => hclean y (by simp [hy])) ?_
    rcases List.mem_cons.mp hmem with h' | h'
    · exact Or.inl h'.symm
    · exact Or.inr h'

/-! Claim theorems. -/

/-- Claim C2: for every non-empty price series of nonzero prices,
`calculate_cumulative_returns` first builds the simple-return series with a
leading filled zero and `r[i] = P[i]/P[i-1] - 1`, then returns the running
product `Π(1+r) - 1`; on prices `[100, 110, 99]` the returns are
`[0, 1/10, -1/10]` and the cumulative series `[0, 1/10, -1/100]`. -/
theorem cumulative_returns_spec (P : List ℚ) (hne : P ≠ [])
    (hnz : ∀ x ∈ P, x ≠ 0) :
    pctChange P = returnsSpec P ∧
    calculate_cumulative_returns P = cumulativeSpec (pctChange P) ∧
    pctChange [100, 110, 99] = [0, 1/10, -1/10] ∧
    calculate_cumulative_returns [100, 110, 99] = [0, 1/10, -1/100] := by
  refine ⟨?_, ?_, by norm_num [pctChange, pctChangeFrom],
    by norm_num [calculate_cumulative_returns, pctChange, pctChangeFrom,
      cumprod, cumprodGo]⟩
  · cases P with
    | nil => exact absurd rfl hne
    | cons p ps =>
      simp only [pctChange, returnsSpec, List.length_cons,
        List.range_succ_eq_map, List.map_cons, List.map_map]
      congr 1
      rw [pctChangeFrom_eq ps p]
      apply List.map_congr_left
      intro i _
      simp [List.getD_cons_succ]
  · rw [calculate_cumulative_returns, cumulativeSpec, cumprod, cumprodGo_eq]
    simp only [List.length_map, List.map_map]
    apply List.map_congr_left
    intro i _
    simp only [Function.comp_apply]
    rw [← List.map_take, List.foldl_map]

/-- Claim C8: the first element of the cumulative-return series equals the first
element of the return series (the chained product starts at 1). -/
theorem cumulative_head_eq_returns_head (P : List ℚ) (hne : P ≠ []) :
    (calculate_cumulative_returns P).getD 0 0 = (pctChange P).getD 0 0 := by
  cases P with
  | nil => exact absurd rfl hne
  | cons p ps =>
    norm_num [calculate_cumulative_returns, pctChange, cumprod, cumprodGo]

/-- Witness for C8 at the concrete prices `[100, 110]`. -/
theorem cumulative_head_eq_returns_head_witness :
    (calculate_cumulative_returns [100, 110]).getD 0 0
      = (pctChange [100, 110]).getD 0 0 :=
  cumulative_head_eq_returns_head [100, 110] (by simp)

lemma reconstructGo_pctChangeFrom (ps : List ℚ) : ∀ prev : ℚ, prev ≠ 0 →
    (∀ x ∈ ps, x ≠ 0) → reconstructGo prev (pctChangeFrom prev ps) = ps := by
  induction ps with
  | nil => intro prev _ _; rfl
  | cons p ps ih =>
    intro prev hprev hnz
    have hv : prev * (1 + (p / prev - 1)) = p := by field_simp
    simp only [pctChangeFrom, reconstructGo, hv]
    exact congrArg (p :: ·)
      (ih p (hnz p (by simp)) (fun x hx => hnz x (by simp [hx])))

/-- Claim C9: round-trip — rebuilding prices from the builder's return series and
the initial price reproduces the original series exactly over ℚ. -/
theorem price_roundtrip (P : List ℚ) (hne : P ≠ [])
    (hnz : ∀ x ∈ P, x ≠ 0) :
    reconstructPrices P.headI (pctChange P) = P := by
  cases P with
  | nil => exact absurd rfl hne
  | cons p ps =>
    simp only [List.headI, pctChange, reconstructPrices]
    exact congrArg (p :: ·)
      (reconstructGo_pctChangeFrom ps p (hnz p (by simp))
        (fun x hx => hnz x (by simp [hx])))

/-- Witness for C9 at the concrete prices `[100, 110, 99]`. -/
theorem price_roundtrip_witness :
    reconstructPrices ([100, 110, 99] : List ℚ).headI (pctChange [100, 110, 99])
      = [100, 110, 99] :=
  price_roundtrip [100, 110, 99] (by simp) (by norm_num)

/-- Claim C3 counterexample: on the cumulative series `[0, -1/2, 1/2]` the index-1
term has peak 0 and a negative numerator, so pandas produces `-inf` — which
`Series.min` does NOT skip: the code returns `-inf`, not the minimum of the
definable points (`0` at index 2) that the claim promises. -/
theorem max_drawdown_zero_peak_counterexample :
    calculate_maximum_drawdown [0, -1/2, 1/2] = FV.ninf ∧
    (FV.ninf : FV ℚ) ≠ FV.num 0 := by
  refine ⟨?_, by simp⟩
  norm_num [calculate_maximum_drawdown, runningMax, runningMaxGo, fvMin,
    fvMinVal, fvIsNaN, FV.div, List.filter, max_def, min_def]

/-- Claim C3 amended: `calculate_maximum_drawdown` returns the NaN-skipping minimum
of `(cum[i] - peak[i]) / peak[i]`; a term with `peak = 0` is excluded (as NaN)
only when its numerator is also 0 — whenever `peak[i] = 0` and `cum[i] < 0`
the term is `-inf` and the returned minimum is `-inf`.  On the example
cumulative series `[0, 1/10, -1/100]` the result is `-11/10`. -/
theorem max_drawdown_amended :
    calculate_maximum_drawdown [0, 1/10, -1/100] = FV.num (-11/10) ∧
    ∀ (cum : List ℚ) (i : ℕ), i < cum.length →
      (runningMax cum).getD i 0 = 0 → cum.getD i 0 < 0 →
      calculate_maximum_drawdown cum = FV.ninf := by
  refine ⟨by norm_num [calculate_maximum_drawdown, runningMax, runningMaxGo,
    fvMin, fvMinVal, fvIsNaN, FV.div, List.filter, max_def, min_def], ?_⟩
  intro cum i hi hpeak hneg
  have hrlen : (runningMax cum).length = cum.length := runningMax_length cum
  have hzlen : (cum.zip (runningMax cum)).length = cum.length := by
    rw [List.length_zip, hrlen, Nat.min_self]
  apply fvMin_eq_ninf
  rw [List.mem_iff_getElem]
  refine ⟨i, by simpa [hzlen], ?_⟩
  rw [List.getElem_map, List.getElem_zip]
  rw [FV.div, ← List.getD_eq_getElem cum 0 hi,
    ← List.getD_eq_getElem (runningMax cum) 0 (by rw [hrlen]; exact hi), hpeak]
  rw [if_pos rfl, if_neg (by simpa using not_lt.mpr (le_of_lt hneg)),
    if_pos (by simpa using hneg)]

/-- Witness for the amended C3 at the cumulative series `[0, -1/2, 1/2]`,
index 1. -/
theorem max_drawdown_amended_witness :
    (runningMax [0, -1/2, 1/2]).getD 1 0 = 0 ∧
    ([0, -1/2, 1/2] : List ℚ).getD 1 0 < 0 ∧
    calculate_maximum_drawdown [0, -1/2, 1/2] = FV.ninf :=
  ⟨by norm_num [runningMax, runningMaxGo, max_def], by norm_num,
    max_drawdown_amended.2 [0, -1/2, 1/2] 1 (by norm_num)
      (by norm_num [runningMax, runningMaxGo, max_def]) (by norm_num)⟩

/-- Witness for C2 at the concrete prices `[100, 110, 99]`. -/
theorem cumulative_returns_spec_witness :
    pctChange [100, 110, 99] = returnsSpec [100, 110, 99] ∧
    calculate_cumulative_returns [100, 110, 99]
      = cumulativeSpec (pctChange [100, 110, 99]) ∧
    pctChange [100, 110, 99] = [0, 1/10, -1/10] ∧
    calculate_cumulative_returns [100, 110, 99] = [0, 1/10, -1/100] :=
  cumulative_returns_spec [100, 110, 99] (by simp) (by norm_num)

/-! Evaluation lemmas for the extended-value operations. -/

lemma FV.sub_num_num {α : Type} [LinearOrderedField α] (a b : α) :
    FV.sub (FV.num a) (FV.num b) = FV.num (a - b) := rfl

lemma FV.div_num_zero_of_pos {α : Type} [LinearOrderedField α] {a : α}
    (h : 0 < a) : FV.div (FV.num a) (FV.num 0) = FV.pinf := by
  simp [FV.div, h]

lemma FV.div_num_zero_of_neg {α : Type} [LinearOrderedField α] {a : α}
    (h : a < 0) : FV.div (FV.num a) (FV.num 0) = FV.ninf := by
  simp [FV.div, h, h.not_lt]

lemma FV.div_zero_zero {α : Type} [LinearOrderedField α] :
    FV.div (FV.num (0:α)) (FV.num 0) = FV.nan := by
  simp [FV.div]

lemma FV.mul_pinf_num {α : Type} [LinearOrderedField α] {b : α} (h : 0 < b) :
    FV.mul FV.pinf (FV.num b) = FV.pinf := by
  simp [FV.mul, h]

lemma FV.mul_ninf_num {α : Type} [LinearOrderedField α] {b : α} (h : 0 < b) :
    FV.mul FV.ninf (FV.num b) = FV.ninf := by
  simp [FV.mul, h]

lemma FV.mul_nan_num {α : Type} [LinearOrderedField α] (b : α) :
    FV.mul FV.nan (FV.num b) = FV.nan := rfl

lemma FV.mul_num_num {α : Type} [LinearOrderedField α] (a b : α) :
    FV.mul (FV.num a) (FV.num b) = FV.num (a * b) := rfl

lemma sqrt252_pos : (0:ℝ) < Real.sqrt 252 := Real.sqrt_pos.mpr (by norm_num)

lemma meanQ_replicate (n : ℕ) (c : ℚ) (hn : n ≠ 0) :
    meanQ (List.replicate n c) = c := by
  have hn0 : ((n : ℚ)) ≠ 0 := by exact_mod_cast hn
  rw [meanQ, List.sum_replicate, List.length_replicate, nsmul_eq_mul]
  exact mul_div_cancel_left₀ c hn0

lemma sampleVar_replicate (n : ℕ) (c : ℚ) (hn : n ≠ 0) :
    sampleVar (List.replicate n c) = 0 := by
  rw [sampleVar, meanQ_replicate n c hn, List.map_replicate]
  simp

lemma popVar_singleton (a : ℚ) : popVar [a] = 0 := by
  norm_num [popVar, meanQ]

/-- Claim C1 counterexample: a constant return series of length 2 with mean
above `rf/252` has sample stdev 0 and `calculate_sharpe_ratio` divides by it
with no guard, producing `+inf` — not the NaN / not-computable marker the
claim promises. -/
theorem sharpe_constant_returns_inf :
    calculate_sharpe_ratio [2/100, 2/100] (1/100) = FV.pinf ∧
    (FV.pinf : FV ℝ) ≠ FV.nan := by
  refine ⟨?_, by simp⟩
  have hm : meanQ [2/100, 2/100] = 2/100 := by norm_num [meanQ]
  have hv : sampleVar [2/100, 2/100] = 0 := by norm_num [sampleVar, meanQ]
  have hc : (0:ℝ) < (((2:ℚ)/100 : ℚ) : ℝ) - (((1:ℚ)/100 / 252 : ℚ) : ℝ) := by
    rw [show (((2:ℚ)/100 : ℚ) : ℝ) = 2/100 by norm_num,
      show (((1:ℚ)/100 / 252 : ℚ) : ℝ) = 1/25200 by norm_num]
    norm_num
  rw [calculate_sharpe_ratio, fmean, if_neg (by simp), hm, pandasStd,
    if_neg (by norm_num), hv]
  rw [show ((((0:ℚ)) : ℝ)) = 0 by norm_num, Real.sqrt_zero, FV.sub_num_num,
    FV.div_num_zero_of_pos hc, FV.mul_pinf_num sqrt252_pos]

/-- Claim C1 amended: `calculate_sharpe_ratio` has no zero-stdev guard; for
every constant return series of length at least 2 it divides the excess mean
by a zero standard deviation, returning `+inf` when the constant exceeds
`rf/252`, `-inf` when it is below, and NaN only in the knife-edge case of
exact equality. -/
theorem sharpe_no_zero_std_guard (n : ℕ) (c rf : ℚ) (hn : 2 ≤ n) :
    (rf / 252 < c → calculate_sharpe_ratio (List.replicate n c) rf = FV.pinf) ∧
    (c < rf / 252 → calculate_sharpe_ratio (List.replicate n c) rf = FV.ninf) ∧
    (c = rf / 252 → calculate_sharpe_ratio (List.replicate n c) rf = FV.nan) := by
  have hn0 : n ≠ 0 := by omega
  have hne : List.replicate n c ≠ [] := by
    intro h
    apply hn0
    simpa using congrArg List.length h
  have hstd : pandasStd (List.replicate n c) = FV.num 0 := by
    rw [pandasStd, if_neg (by rw [List.length_replicate]; omega),
      sampleVar_replicate n c hn0]
    norm_num
  have hmean : fmean (List.replicate n c) = FV.num ((c : ℚ) : ℝ) := by
    rw [fmean, if_neg hne, meanQ_replicate n c hn0]
  refine ⟨?_, ?_, ?_⟩
  · intro hlt
    have hc : (0:ℝ) < (c : ℝ) - ((rf / 252 : ℚ) : ℝ) :=
      sub_pos.mpr (Rat.cast_lt.mpr hlt)
    rw [calculate_sharpe_ratio, hmean, hstd, FV.sub_num_num,
      FV.div_num_zero_of_pos hc, FV.mul_pinf_num sqrt252_pos]
  · intro hlt
    have hc : (c : ℝ) - ((rf / 252 : ℚ) : ℝ) < 0 :=
      sub_neg.mpr (Rat.cast_lt.mpr hlt)
    rw [calculate_sharpe_ratio, hmean, hstd, FV.sub_num_num,
      FV.div_num_zero_of_neg hc, FV.mul_ninf_num sqrt252_pos]
  · intro heq
    have hc : (c : ℝ) - ((rf / 252 : ℚ) : ℝ) = 0 := by
      rw [heq]; ring
    rw [calculate_sharpe_ratio, hmean, hstd, FV.sub_num_num, hc,
      FV.div_zero_zero, FV.mul_nan_num]

/-- Witness for the amended C1: constant series `[2/100, 2/100]` with
`rf = 1/100` yields `+inf`. -/
theorem sharpe_no_zero_std_guard_witness :
    (1:ℚ)/100/252 < 2/100 ∧
    calculate_sharpe_ratio (List.replicate 2 (2/100)) (1/100) = FV.pinf :=
  ⟨by norm_num,
    (sharpe_no_zero_std_guard 2 (2/100) (1/100) (by norm_num)).1 (by norm_num)⟩

/-- Claim C4 counterexample: on the example returns pandas' linearly
interpolated 5th percentile is `-0.017`, not the claimed `-0.02`, so
`calculate_var` returns `0.017 * sqrt 252 ≈ 0.2699`, not `0.02 * sqrt 252
≈ 0.3175`. -/
theorem var_example_contradicts_claim :
    calculate_var [1/100, -2/100, 15/1000, -5/1000, 2/100] (95/100) 252
      = FV.num ((17/1000 : ℝ) * Real.sqrt 252) ∧
    (17/1000 : ℝ) * Real.sqrt 252 ≠ (2/100 : ℝ) * Real.sqrt 252 := by
  constructor
  · rw [calculate_var, if_neg (by simp)]
    have hq : quantileQ [1/100, -2/100, 15/1000, -5/1000, 2/100] (1 - 95/100)
        = -17/1000 := by
      norm_num [quantileQ, List.insertionSort, List.orderedInsert]
    rw [hq]
    simp only [FV.num.injEq]
    push_cast
    ring_nf
  · intro h
    have hs : Real.sqrt 252 ≠ 0 := by
      rw [Real.sqrt_ne_zero']
      norm_num
    have h2 := mul_right_cancel₀ hs h
    norm_num at h2

/-- Claim C4 amended: `calculate_var` returns NaN on an empty series and
otherwise `-(quantile(r, 0.05) * sqrt 252)` with pandas' linear-interpolation
quantile; on the example returns the 5th percentile is `-17/1000 = -0.017`
(not `-0.02`) and the reported VaR `0.017 * sqrt 252 ≈ 0.2699` is positive. -/
theorem var_spec_amended (returns : List ℚ) (hne : returns ≠ []) :
    calculate_var returns (95/100) 252
      = FV.num (-(((quantileQ returns (1/20) : ℚ) : ℝ) * Real.sqrt 252)) ∧
    calculate_var [] (95/100) 252 = FV.nan ∧
    quantileQ [1/100, -2/100, 15/1000, -5/1000, 2/100] (1/20) = -17/1000 ∧
    0 < (17/1000 : ℝ) * Real.sqrt 252 := by
  refine ⟨?_, ?_, ?_, ?_⟩
  · rw [calculate_var, if_neg hne]
    norm_num
  · rw [calculate_var, if_pos rfl]
  · norm_num [quantileQ, List.insertionSort, List.orderedInsert]
  · positivity

/-- Witness for the amended C4 at the example return series. -/
theorem var_spec_amended_witness :
    calculate_var [1/100, -2/100, 15/1000, -5/1000, 2/100] (95/100) 252
      = FV.num (-(((quantileQ [1/100, -2/100, 15/1000, -5/1000, 2/100]
          (1/20) : ℚ) : ℝ) * Real.sqrt 252)) :=
  (var_spec_amended [1/100, -2/100, 15/1000, -5/1000, 2/100] (by simp)).1

/-- Claim C5: `calculate_alpha_beta` inner-joins the two series and drops
rows with a missing value; with fewer than 2 aligned rows, or a benchmark
population variance of 0, it returns `(NaN, NaN)` (it never throws — the
function is total); otherwise it returns
`beta = cov(p, q) / var(q)` and `alpha = (mean p - beta * mean q) * 252`. -/
theorem alpha_beta_spec (a b : List (ℤ × Option ℚ)) :
    ((alignedPairs a b).length < 2 →
      calculate_alpha_beta a b = (FV.nan, FV.nan)) ∧
    (2 ≤ (alignedPairs a b).length →
      popVar ((alignedPairs a b).map Prod.snd) = 0 →
      calculate_alpha_beta a b = (FV.nan, FV.nan)) ∧
    (2 ≤ (alignedPairs a b).length →
      popVar ((alignedPairs a b).map Prod.snd) ≠ 0 →
      calculate_alpha_beta a b =
        (FV.num ((meanQ ((alignedPairs a b).map Prod.fst)
            - sampleCov ((alignedPairs a b).map Prod.fst)
                ((alignedPairs a b).map Prod.snd)
              / popVar ((alignedPairs a b).map Prod.snd)
            * meanQ ((alignedPairs a b).map Prod.snd)) * 252),
         FV.num (sampleCov ((alignedPairs a b).map Prod.fst)
            ((alignedPairs a b).map Prod.snd)
            / popVar ((alignedPairs a b).map Prod.snd)))) := by
  refine ⟨?_, ?_, ?_⟩
  · intro h
    simp only [calculate_alpha_beta]
    rw [if_pos h]
  · intro h hv
    simp only [calculate_alpha_beta]
    rw [if_neg (by omega), if_pos hv]
  · intro h hv
    simp only [calculate_alpha_beta]
    rw [if_neg (by omega), if_neg hv]

/-- Witness for C5: three fully aligned points with nonzero benchmark
variance produce the cov/var slope and annualized intercept. -/
theorem alpha_beta_spec_witness :
    calculate_alpha_beta
        [(1, some (1/100)), (2, some (2/100)), (3, some (3/100))]
        [(1, some (1/100)), (2, some (3/100)), (3, some (2/100))]
      = (FV.num (63/50), FV.num (3/4)) := by
  have hA : alignedPairs
      [(1, some (1/100)), (2, some (2/100)), (3, some (3/100))]
      [(1, some (1/100)), (2, some (3/100)), (3, some (2/100))]
    = [(1/100, 1/100), (2/100, 3/100), (3/100, 2/100)] := rfl
  have h := (alpha_beta_spec
    [(1, some (1/100)), (2, some (2/100)), (3, some (3/100))]
    [(1, some (1/100)), (2, some (3/100)), (3, some (2/100))]).2.2
    (by rw [hA]; norm_num)
    (by rw [hA]; norm_num [popVar, meanQ])
  rw [h, hA]
  norm_num [popVar, meanQ, sampleCov, List.zip]

/-- Claim C6 counterexample: with a single aligned point,
`calculate_tracking_error` returns the number 0 (since `np.std` with divisor
`n` is 0 for one point) and `calculate_information_ratio` returns `+inf` —
neither performs the claimed explicit fewer-than-2-points check returning the
not-computable marker. -/
theorem tracking_info_single_point_counterexample :
    calculate_tracking_error [2/100] [1/100] = FV.num 0 ∧
    calculate_information_ratio [2/100] [1/100] = FV.pinf ∧
    FV.num (0:ℝ) ≠ FV.nan ∧ (FV.pinf : FV ℝ) ≠ FV.nan := by
  have hz : zipSub [(2:ℚ)/100] [1/100] = [2/100 - 1/100] := rfl
  have hstd : npStd [(2:ℚ)/100 - 1/100] = FV.num 0 := by
    rw [npStd, if_neg (by simp), popVar_singleton]
    norm_num
  have hmean : fmean [(2:ℚ)/100 - 1/100]
      = FV.num (((2:ℚ)/100 - 1/100 : ℚ) : ℝ) := by
    rw [fmean, if_neg (by simp)]
    norm_num [meanQ]
  have hc : (0:ℝ) < (((2:ℚ)/100 - 1/100 : ℚ) : ℝ) := by
    rw [show (((2:ℚ)/100 - 1/100 : ℚ) : ℝ) = 1/100 by norm_num]
    norm_num
  refine ⟨?_, ?_, by simp, by simp⟩
  · rw [calculate_tracking_error, hz, hstd, FV.mul_num_num, zero_mul]
  · rw [calculate_information_ratio, hz, hstd, hmean,
      FV.div_num_zero_of_pos hc, FV.mul_pinf_num sqrt252_pos]

/-- Claim C6 amended: neither `calculate_tracking_error` nor
`calculate_information_ratio` checks for a minimum number of aligned points;
with exactly one aligned point the population stdev is 0, so tracking error
returns the number 0 and the information ratio returns `+inf` / `-inf` / NaN
according to the sign of the single excess return; both functions are total
(the computation is never aborted). -/
theorem tracking_info_no_min_points_guard (x y : ℚ) :
    calculate_tracking_error [x] [y] = FV.num 0 ∧
    (y < x → calculate_information_ratio [x] [y] = FV.pinf) ∧
    (x < y → calculate_information_ratio [x] [y] = FV.ninf) ∧
    (x = y → calculate_information_ratio [x] [y] = FV.nan) := by
  have hz : zipSub [x] [y] = [x - y] := rfl
  have hstd : npStd [x - y] = FV.num 0 := by
    rw [npStd, if_neg (by simp), popVar_singleton]
    norm_num
  have hmean : fmean [x - y] = FV.num ((x - y : ℚ) : ℝ) := by
    rw [fmean, if_neg (by simp)]
    norm_num [meanQ]
  refine ⟨?_, ?_, ?_, ?_⟩
  · rw [calculate_tracking_error, hz, hstd, FV.mul_num_num, zero_mul]
  · intro h
    have hc : (0:ℝ) < ((x - y : ℚ) : ℝ) := by
      exact_mod_cast sub_pos.mpr h
    rw [calculate_information_ratio, hz, hstd, hmean,
      FV.div_num_zero_of_pos hc, FV.mul_pinf_num sqrt252_pos]
  · intro h
    have hc : ((x - y : ℚ) : ℝ) < 0 := by
      exact_mod_cast sub_neg.mpr h
    rw [calculate_information_ratio, hz, hstd, hmean,
      FV.div_num_zero_of_neg hc, FV.mul_ninf_num sqrt252_pos]
  · intro h
    have hc : ((x - y : ℚ) : ℝ) = 0 := by
      rw [h]; norm_num
    rw [calculate_information_ratio, hz, hstd, hmean, hc,
      FV.div_zero_zero, FV.mul_nan_num]

/-- Witness for the amended C6 at the single aligned pair `(2/100, 1/100)`. -/
theorem tracking_info_no_min_points_guard_witness :
    calculate_tracking_error [(2:ℚ)/100] [1/100] = FV.num 0 ∧
    calculate_information_ratio [(2:ℚ)/100] [1/100] = FV.pinf :=
  ⟨(tracking_info_no_min_points_guard (2/100) (1/100)).1,
    (tracking_info_no_min_points_guard (2/100) (1/100)).2.1 (by norm_num)⟩

/-- Claim C7: for a non-empty return series, `calculate_sortino_ratio`
returns NaN exactly when the downside deviation
`sqrt(mean(min(r - rf/252, 0)^2)) * sqrt(252)` is zero — i.e. when every
return is at least `rf/252` — and otherwise returns
`mean(r - rf/252) * 252 / downside_deviation`. -/
theorem sortino_spec (returns : List ℚ) (rf : ℚ) (hne : returns ≠ []) :
    ((∀ x ∈ returns, rf / 252 ≤ x) →
      calculate_sortino_ratio returns rf = FV.nan) ∧
    ((∃ x ∈ returns, x < rf / 252) →
      calculate_sortino_ratio returns rf
        = FV.num
            ((((returns.map (fun x => x - rf / 252)).sum / returns.length : ℚ) : ℝ)
                * 252
              / (Real.sqrt
                    (((returns.map (fun x => min (x - rf / 252) 0 ^ 2)).sum
                      / returns.length : ℚ) : ℝ)
                  * Real.sqrt 252))) := by
  have hlenpos : 0 < returns.length := List.length_pos.mpr hne
  have hmq : meanQ ((returns.map (fun x => min (x - rf / 252) 0)).map
        (fun x => x ^ 2))
      = (returns.map (fun x => min (x - rf / 252) 0 ^ 2)).sum
          / returns.length := by
    rw [meanQ, List.map_map, List.length_map]
    rfl
  have hme : meanQ (returns.map (fun x => x - rf / 252))
      = (returns.map (fun x => x - rf / 252)).sum / returns.length := by
    rw [meanQ, List.length_map]
  constructor
  · intro hall
    have hS : (returns.map (fun x => min (x - rf / 252) 0 ^ 2)).sum = 0 := by
      apply List.sum_eq_zero
      intro a ha
      rcases List.mem_map.mp ha with ⟨x, hx, rfl⟩
      have h0 : min (x - rf / 252) 0 = 0 :=
        min_eq_right (sub_nonneg.mpr (hall x hx))
      rw [h0]
      norm_num
    simp only [calculate_sortino_ratio]
    rw [hmq, hS]
    norm_num
  · intro h
    obtain ⟨x, hx, hlt⟩ := h
    have hminx : min (x - rf / 252) 0 = x - rf / 252 :=
      min_eq_left (le_of_lt (sub_neg.mpr hlt))
    have hxpos : 0 < min (x - rf / 252) 0 ^ 2 := by
      rw [hminx, pow_two]
      exact mul_pos_of_neg_of_neg (sub_neg.mpr hlt) (sub_neg.mpr hlt)
    have hSpos : 0 < (returns.map (fun z => min (z - rf / 252) 0 ^ 2)).sum := by
      apply lt_of_lt_of_le hxpos
      apply List.single_le_sum
      · intro a ha
        rcases List.mem_map.mp ha with ⟨z, hz, rfl⟩
        positivity
      · exact List.mem_map_of_mem _ hx
    have hdqpos : 0 < (returns.map (fun z => min (z - rf / 252) 0 ^ 2)).sum
        / (returns.length : ℚ) := by
      apply div_pos hSpos
      exact_mod_cast hlenpos
    have hddpos : 0 < Real.sqrt
          (((returns.map (fun z => min (z - rf / 252) 0 ^ 2)).sum
            / returns.length : ℚ) : ℝ) * Real.sqrt 252 := by
      apply mul_pos _ sqrt252_pos
      exact Real.sqrt_pos.mpr (by exact_mod_cast hdqpos)
    simp only [calculate_sortino_ratio]
    rw [hmq, hme, if_neg (ne_of_gt hddpos)]

/-- Witness for C7 at `[1/100, -2/100]` with `rf = 1/100`: the second return
is below `rf/252`, so the ratio is returned as a finite value. -/
theorem sortino_spec_witness :
    calculate_sortino_ratio [1/100, -2/100] (1/100)
      = FV.num
          (((([(1:ℚ)/100, -2/100].map (fun x => x - (1/100) / 252)).sum
              / ([(1:ℚ)/100, -2/100] : List ℚ).length : ℚ) : ℝ) * 252
            / (Real.sqrt
                ((([(1:ℚ)/100, -2/100].map
                    (fun x => min (x - (1/100) / 252) 0 ^ 2)).sum
                  / ([(1:ℚ)/100, -2/100] : List ℚ).length : ℚ) : ℝ)
               * Real.sqrt 252)) :=
  (sortino_spec [1/100, -2/100] (1/100) (by simp)).2
    ⟨-2/100, by simp, by norm_num⟩

/-- Claim C10: the engine mixes two stdev conventions — `pandasStd` (used by
`calculate_annual_volatility`) is the sample stdev, NaN for a single point,
while `npStd` (used by `calculate_tracking_error` and
`calculate_information_ratio`) is the population stdev, 0 for a single point;
for any series of length `n ≥ 2` the population stdev equals the sample
stdev scaled by `sqrt((n-1)/n)`. -/
theorem std_convention_mismatch :
    (∀ x : ℚ, pandasStd [x] = FV.nan ∧ npStd [x] = FV.num 0) ∧
    (∀ l : List ℚ, 2 ≤ l.length →
      pandasStd l = FV.num (Real.sqrt ((sampleVar l : ℚ) : ℝ)) ∧
      npStd l
        = FV.num (Real.sqrt ((((l.length : ℚ) - 1) / (l.length : ℚ) : ℚ) : ℝ)
            * Real.sqrt ((sampleVar l : ℚ) : ℝ))) := by
  constructor
  · intro x
    refine ⟨?_, ?_⟩
    · rw [pandasStd, if_pos (by norm_num)]
    · rw [npStd, if_neg (by simp), popVar_singleton]
      norm_num
  · intro l hl
    have hne : l ≠ [] := by
      intro h
      rw [h] at hl
      simp at hl
    have hnpos : (0:ℚ) < (l.length : ℚ) := by
      exact_mod_cast (by omega : 0 < l.length)
    have hn1 : (0:ℚ) < (l.length : ℚ) - 1 := by
      have h2 : (2:ℚ) ≤ (l.length : ℚ) := by exact_mod_cast hl
      linarith
    have hrel : popVar l
        = ((l.length : ℚ) - 1) / (l.length : ℚ) * sampleVar l := by
      rw [popVar, sampleVar]
      have h1 : ((l.length : ℚ)) ≠ 0 := hnpos.ne'
      have h2 : ((l.length : ℚ)) - 1 ≠ 0 := hn1.ne'
      field_simp
      ring
    refine ⟨?_, ?_⟩
    · rw [pandasStd, if_neg (by omega)]
    · rw [npStd, if_neg hne, hrel, Rat.cast_mul,
        Real.sqrt_mul (Rat.cast_nonneg.mpr (div_nonneg hn1.le hnpos.le))]

/-- Witness for C10 at a single point `[5]` and the pair `[1/100, 3/100]`. -/
theorem std_convention_mismatch_witness :
    pandasStd [(5:ℚ)] = FV.nan ∧ npStd [(5:ℚ)] = FV.num 0 ∧
    pandasStd [(1:ℚ)/100, 3/100]
      = FV.num (Real.sqrt ((sampleVar [(1:ℚ)/100, 3/100] : ℚ) : ℝ)) ∧
    npStd [(1:ℚ)/100, 3/100]
      = FV.num (Real.sqrt
            ((((([(1:ℚ)/100, 3/100] : List ℚ).length : ℚ) - 1)
              / (([(1:ℚ)/100, 3/100] : List ℚ).length : ℚ) : ℚ) : ℝ)
          * Real.sqrt ((sampleVar [(1:ℚ)/100, 3/100] : ℚ) : ℝ)) :=
  ⟨(std_convention_mismatch.1 5).1, (std_convention_mismatch.1 5).2,
    (std_convention_mismatch.2 [1/100, 3/100] (by norm_num)).1,
    (std_convention_mismatch.2 [1/100, 3/100] (by norm_num)).2⟩

end PortfolioMetrics
